import Mathlib

/-!
Verification of the ai-digest aggregation pipeline (Go sources under
`cmd/`, `internal/processor/`, `internal/utils/`) against its
natural-language specification.

The Go code is shallowly embedded: Go strings and byte slices become
`List Nat` (one `Nat` per byte, always `< 256` on real data), runes become
`Char`, machine integers (`int`, `int64`) become `Nat` where the code keeps
them non-negative (sizes, counts — `validateFlags` rejects non-positive
`max-size`/`chunk-size`, and `NewProcessor` replaces a zero with the
default), and fallible operations return `Except (List Nat)` carrying the
error message bytes.  Environmental I/O failures (disk full, permission
errors) are outside the embedding; the `WalkEntry.ioError` field models a
per-file stat/read failure reported by the OS during processing.

String literals used by the code are all ASCII, so a Go string literal's
UTF-8 bytes coincide with its code points; `s2b` below exploits this.
-/

namespace AiDigest

/-- Bytes of an ASCII string literal (all literals in the Go sources are
ASCII, so UTF-8 bytes = code points). -/
def s2b (s : String) : List Nat := s.data.map Char.toNat

/-- `var utf8BOM = []byte{0xEF, 0xBB, 0xBF}` (processor.go). -/
def utf8BOM : List Nat := [0xEF, 0xBB, 0xBF]

/-- A UTF-8 continuation byte, `0x80..0xBF`. -/
def contB (b : Nat) : Bool := decide (0x80 ≤ b ∧ b ≤ 0xBF)

/-- Allowed second byte after a 3-byte leader, per the UTF-8 accept ranges
used by Go's `unicode/utf8` (E0 narrows to A0..BF, ED to 80..9F). -/
def cont2 (b1 b2 : Nat) : Bool :=
  if b1 = 0xE0 then decide (0xA0 ≤ b2 ∧ b2 ≤ 0xBF)
  else if b1 = 0xED then decide (0x80 ≤ b2 ∧ b2 ≤ 0x9F)
  else contB b2

/-- Allowed second byte after a 4-byte leader (F0 narrows to 90..BF, F4 to
80..8F). -/
def cont3 (b1 b2 : Nat) : Bool :=
  if b1 = 0xF0 then decide (0x90 ≤ b2 ∧ b2 ≤ 0xBF)
  else if b1 = 0xF4 then decide (0x80 ≤ b2 ∧ b2 ≤ 0x8F)
  else contB b2

/-- `utf8.Valid` / `utf8.ValidString` from Go's standard library: shortest
form UTF-8, surrogates excluded, code points at most U+10FFFF. -/
def utf8Valid : List Nat → Bool
  | [] => true
  | b1 :: rest =>
    if b1 < 0x80 then utf8Valid rest
    else if b1 < 0xC2 then false
    else if b1 < 0xE0 then
      match rest with
      | b2 :: rest2 => contB b2 && utf8Valid rest2
      | [] => false
    else if b1 < 0xF0 then
      match rest with
      | b2 :: b3 :: rest2 => cont2 b1 b2 && contB b3 && utf8Valid rest2
      | _ => false
    else if b1 < 0xF5 then
      match rest with
      | b2 :: b3 :: b4 :: rest2 => cont3 b1 b2 && contB b3 && contB b4 && utf8Valid rest2
      | _ => false
    else false

/-- Rune iteration over a Go string's bytes (`for _, r := range s` /
`string(bytes)`): a valid sequence decodes to its code point, an invalid
byte decodes to U+FFFD and consumes one byte. -/
def utf8Decode : List Nat → List Char
  | [] => []
  | b1 :: rest =>
    if b1 < 0x80 then Char.ofNat b1 :: utf8Decode rest
    else if b1 < 0xC2 then Char.ofNat 0xFFFD :: utf8Decode rest
    else if b1 < 0xE0 then
      match rest with
      | b2 :: rest2 =>
        if contB b2 then Char.ofNat ((b1 - 0xC0) * 64 + (b2 - 0x80)) :: utf8Decode rest2
        else Char.ofNat 0xFFFD :: utf8Decode (b2 :: rest2)
      | [] => [Char.ofNat 0xFFFD]
    else if b1 < 0xF0 then
      match rest with
      | b2 :: b3 :: rest2 =>
        if cont2 b1 b2 && contB b3 then
          Char.ofNat ((b1 - 0xE0) * 4096 + (b2 - 0x80) * 64 + (b3 - 0x80)) :: utf8Decode rest2
        else Char.ofNat 0xFFFD :: utf8Decode (b2 :: b3 :: rest2)
      | _ => List.map (fun _ => Char.ofNat 0xFFFD) (b1 :: rest)
    else if b1 < 0xF5 then
      match rest with
      | b2 :: b3 :: b4 :: rest2 =>
        if cont3 b1 b2 && contB b3 && contB b4 then
          Char.ofNat ((b1 - 0xF0) * 262144 + (b2 - 0x80) * 4096 + (b3 - 0x80) * 64 + (b4 - 0x80))
            :: utf8Decode rest2
        else Char.ofNat 0xFFFD :: utf8Decode (b2 :: b3 :: b4 :: rest2)
      | _ => List.map (fun _ => Char.ofNat 0xFFFD) (b1 :: rest)
    else Char.ofNat 0xFFFD :: utf8Decode rest

/-- UTF-8 encoding of one rune (`strings.Builder.WriteRune`); a Lean
`Char` is always a valid scalar value, matching Go runes written from
decoded text. -/
def utf8EncodeChar (c : Char) : List Nat :=
  let n := c.toNat
  if n < 0x80 then [n]
  else if n < 0x800 then [0xC0 + n / 64, 0x80 + n % 64]
  else if n < 0x10000 then [0xE0 + n / 4096, 0x80 + n / 64 % 64, 0x80 + n % 64]
  else [0xF0 + n / 262144, 0x80 + n / 4096 % 64, 0x80 + n / 64 % 64, 0x80 + n % 64]

/-- Bytes of a string built rune by rune (`strings.Builder`). -/
def utf8Encode (cs : List Char) : List Nat := (cs.map utf8EncodeChar).flatten

/-- `bytes.TrimPrefix(content, utf8BOM)` (processTextFile). -/
def stripBOM (bs : List Nat) : List Nat :=
  if utf8BOM.isPrefixOf bs then bs.drop 3 else bs

/-! ### Whitespace normalization (`internal/utils/files.go`) -/

/-- `isWhitespace` from files.go: the six ASCII whitespace runes. -/
def isWhitespaceRune (r : Char) : Bool :=
  r = ' ' || r = '\t' || r = '\n' || r = Char.ofNat 0x0B || r = Char.ofNat 0x0C || r = '\r'

/-- Go's `unicode.IsSpace`: the Unicode White_Space runes (used by
`strings.TrimSpace`). -/
def goIsSpace (r : Char) : Bool :=
  r = '\t' || r = '\n' || r = Char.ofNat 0x0B || r = Char.ofNat 0x0C || r = '\r' || r = ' '
    || r = Char.ofNat 0x85 || r = Char.ofNat 0xA0 || r = Char.ofNat 0x1680
    || (Char.ofNat 0x2000 ≤ r && r ≤ Char.ofNat 0x200A)
    || r = Char.ofNat 0x2028 || r = Char.ofNat 0x2029 || r = Char.ofNat 0x202F
    || r = Char.ofNat 0x205F || r = Char.ofNat 0x3000

/-- The rune loop of `RemoveWhitespace`: each maximal run of whitespace
runes becomes a single `' '`; the `space` flag says whether the previous
rune was part of such a run. -/
def collapseWS : List Char → Bool → List Char
  | [], _ => []
  | r :: rs, space =>
    if isWhitespaceRune r then
      if space then collapseWS rs true else ' ' :: collapseWS rs true
    else r :: collapseWS rs false

/-- `strings.TrimLeftFunc(s, unicode.IsSpace)`: drop leading space runes. -/
def trimLeftSpace (l : List Char) : List Char := l.dropWhile goIsSpace

/-- `strings.TrimRightFunc(s, unicode.IsSpace)`: drop trailing space
runes (recursive form of slicing off the trailing run). -/
def trimRightSpace : List Char → List Char
  | [] => []
  | r :: rs =>
    let t := trimRightSpace rs
    if t.isEmpty && goIsSpace r then [] else r :: t

/-- `strings.TrimSpace`. -/
def trimSpace (l : List Char) : List Char := trimRightSpace (trimLeftSpace l)

/-- `RemoveWhitespace` from files.go: collapse whitespace runs to single
spaces, then trim. -/
def RemoveWhitespace (s : List Char) : List Char := trimSpace (collapseWS s false)

/-! ### Path helpers (`path/filepath`, `strings`) -/

/-- Scan a reversed path for the extension: stop at the last `.` (byte 46)
of the final element, give up at a separator `/` (byte 47). -/
def extOfAux : List Nat → List Nat → List Nat
  | [], _ => []
  | c :: rest, acc =>
    if c = 46 then 46 :: acc
    else if c = 47 then []
    else extOfAux rest (c :: acc)

/-- `filepath.Ext(path)`: the suffix of the final element starting at its
final dot, empty when the final element has no dot. -/
def extOf (p : List Nat) : List Nat := extOfAux p.reverse []

/-- `strings.TrimPrefix(ext, ".")`. -/
def dropDot (ext : List Nat) : List Nat :=
  if (s2b ".").isPrefixOf ext then ext.drop 1 else ext

/-- The ASCII fragment of `strings.ToLower`; the paths this is applied to
are compared against ASCII extension tables, and no rune outside ASCII
lower-cases into ASCII, so the fragment agrees with Go on every comparison
the code performs. -/
def asciiToLower (p : List Nat) : List Nat :=
  p.map fun c => if 65 ≤ c ∧ c ≤ 90 then c + 32 else c

/-- `strings.HasSuffix(s, suffix)`:
`len(s) >= len(suffix) && s[len(s)-len(suffix):] == suffix`. -/
def goHasSuffix (s suffix : List Nat) : Bool :=
  s.drop (s.length - suffix.length) == suffix

/-! ### Extension tables (`internal/utils`) -/

/-- `WhitespaceDependentExtensions` (ignore.go): the extensions whose
whitespace is significant. -/
def WhitespaceDependentExtensions : List (List Nat) :=
  [s2b ".py", s2b ".yaml", s2b ".yml", s2b ".jade", s2b ".haml", s2b ".slim",
   s2b ".coffee", s2b ".pug", s2b ".styl", s2b ".gd"]

/-- `IsWhitespaceSensitive(ext)` (files.go): map lookup, absent keys give
`false`. -/
def IsWhitespaceSensitive (ext : List Nat) : Bool :=
  WhitespaceDependentExtensions.contains ext

/-- `BinaryFileTypes` (files.go): extension to type-label table. -/
def BinaryFileTypes : List (List Nat × List Nat) :=
  [(s2b ".jpg", s2b "Image"), (s2b ".jpeg", s2b "Image"), (s2b ".png", s2b "Image"),
   (s2b ".gif", s2b "Image"), (s2b ".bmp", s2b "Image"), (s2b ".webp", s2b "Image"),
   (s2b ".svg", s2b "SVG Image"), (s2b ".wasm", s2b "WebAssembly"),
   (s2b ".pdf", s2b "PDF"), (s2b ".doc", s2b "Word Document"),
   (s2b ".docx", s2b "Word Document"), (s2b ".xls", s2b "Excel Spreadsheet"),
   (s2b ".xlsx", s2b "Excel Spreadsheet"), (s2b ".ppt", s2b "PowerPoint Presentation"),
   (s2b ".pptx", s2b "PowerPoint Presentation"), (s2b ".zip", s2b "Compressed Archive"),
   (s2b ".rar", s2b "Compressed Archive"), (s2b ".7z", s2b "Compressed Archive"),
   (s2b ".exe", s2b "Executable"), (s2b ".dll", s2b "Dynamic-link Library"),
   (s2b ".so", s2b "Shared Object"), (s2b ".dylib", s2b "Dynamic Library")]

/-- Lookup in `BinaryFileTypes`. -/
def binaryTypeLookup (ext : List Nat) : Option (List Nat) :=
  (BinaryFileTypes.find? fun kv => kv.1 == ext).map Prod.snd

/-- `GetFileType(path)` (files.go). -/
def GetFileType (path : List Nat) : List Nat :=
  match binaryTypeLookup (asciiToLower (extOf path)) with
  | some label => label
  | none => s2b "Binary"

/-- `ShouldTreatAsBinary(path)` (files.go): the lower-cased extension is a
key of `BinaryFileTypes`. -/
def ShouldTreatAsBinary (path : List Nat) : Bool :=
  (binaryTypeLookup (asciiToLower (extOf path))).isSome

/-- `strings.Contains(s, substr)`: some position of `s` starts with
`substr`. -/
def containsSub : List Nat → List Nat → Bool
  | s, sub =>
    if sub.isPrefixOf s then true
    else
      match s with
      | [] => false
      | _ :: t => containsSub t sub

/-- `IsTextFile(path)` (files.go).  The MIME type sniffed by
`http.DetectContentType` from the first 512 bytes is an input
(`contentType`); the function itself only asks whether that type mentions
"binary", except that a path ending in `.svg` is always text.  The
environmental read error path is not modelled here (a failing file enters
the pipeline through `WalkEntry.ioError` instead). -/
def IsTextFile (path contentType : List Nat) : Bool :=
  if goHasSuffix (asciiToLower path) (s2b ".svg") then true
  else !(containsSub contentType (s2b "binary"))

/-! ### Per-file formatting (`internal/processor`, part_001) -/

/-- `Processor.processTextFile`, on the file's bytes.  The Go function
receives `Join(InputDir, relPath)` and recomputes `relPath` with
`filepath.Rel`; joining a directory onto a clean relative path changes
neither the extension nor the recovered relative path, so the embedding
takes `relPath` directly.  `string(content)` keeps the (validated) bytes
verbatim, so only the whitespace-normalized branch re-encodes runes. -/
def processTextFile (relPath content : List Nat) (removeWS : Bool) :
    Except (List Nat) (List Nat) :=
  let c := stripBOM content
  if !(utf8Valid c) then
    .error (s2b "file " ++ relPath ++ s2b " contains invalid UTF-8 characters")
  else
    let ext := extOf relPath
    let contentStr :=
      if removeWS && !(IsWhitespaceSensitive ext) then
        utf8Encode (RemoveWhitespace (utf8Decode c))
      else c
    if ext == s2b ".md" || ext == s2b ".markdown" then
      .ok (s2b "# " ++ relPath ++ s2b "\n\n" ++ s2b "````md\n" ++ contentStr
        ++ s2b "\n````\n\n")
    else
      .ok (s2b "# " ++ relPath ++ s2b "\n\n" ++ s2b "```" ++ dropDot ext ++ s2b "\n"
        ++ contentStr ++ s2b "\n```\n\n")

/-- `Processor.formatBinaryFileContent(path, fileType)`. -/
def formatBinaryFileContent (path fileType : List Nat) : List Nat :=
  let description :=
    if goHasSuffix (asciiToLower path) (s2b ".svg") then
      s2b "This is a file of type: " ++ fileType
    else
      s2b "This is a binary file of type: " ++ fileType
  s2b "# " ++ path ++ s2b "\n\n" ++ description ++ s2b "\n\n"

/-- `FileResult` (internal/processor/types.go). -/
structure FileResult where
  relativePath : List Nat
  content : List Nat := []
  fileType : List Nat := []
  size : Nat := 0
  error : Option (List Nat) := none
deriving DecidableEq

/-- One entry yielded to the `filepath.Walk` callback, with the data the
pipeline later reads from that path: the file bytes, the MIME type
`http.DetectContentType` sniffs from its first 512 bytes, and an optional
stat/read failure. -/
structure WalkEntry where
  rel : List Nat
  isDir : Bool := false
  ioError : Option (List Nat) := none
  content : List Nat := []
  contentType : List Nat := []
deriving DecidableEq

/-- `Processor.processFile(relPath)`.  Extension and suffix tests on the
joined `fullPath` agree with the same tests on `relPath` (the join only
prepends `InputDir ++ "/"`). -/
def processFile (removeWS : Bool) (e : WalkEntry) : FileResult :=
  match e.ioError with
  | some err => { relativePath := e.rel, error := some err }
  | none =>
    if IsTextFile e.rel e.contentType && !(ShouldTreatAsBinary e.rel) then
      match processTextFile e.rel e.content removeWS with
      | .ok c =>
        { relativePath := e.rel, content := c, fileType := s2b "text",
          size := e.content.length }
      | .error err =>
        { relativePath := e.rel, error := some err, size := e.content.length }
    else
      { relativePath := e.rel, fileType := GetFileType e.rel,
        content := formatBinaryFileContent e.rel (GetFileType e.rel),
        size := e.content.length }

/-! ### Ignore matching (`internal/utils/ignore.go`) -/

/-- `DefaultIgnores` (ignore.go). -/
def DefaultIgnores : List (List Nat) :=
  [s2b "node_modules", s2b "package-lock.json", s2b "npm-debug.log",
   s2b "yarn.lock", s2b "yarn-error.log", s2b "pnpm-lock.yaml", s2b "bun.lockb",
   s2b "deno.lock", s2b "vendor", s2b "composer.lock", s2b "__pycache__",
   s2b "*.pyc", s2b "*.pyo", s2b "*.pyd", s2b ".Python", s2b "pip-log.txt",
   s2b "pip-delete-this-directory.txt", s2b ".venv", s2b "venv", s2b "ENV",
   s2b "env", s2b ".godot", s2b "*.import", s2b "Gemfile.lock", s2b ".bundle",
   s2b "target", s2b "*.class", s2b ".gradle", s2b "build", s2b "pom.xml.tag",
   s2b "pom.xml.releaseBackup", s2b "pom.xml.versionsBackup", s2b "pom.xml.next",
   s2b "bin", s2b "obj", s2b "*.suo", s2b "*.user", s2b "go.sum", s2b "Cargo.lock",
   s2b "target", s2b ".git", s2b ".svn", s2b ".hg", s2b ".DS_Store", s2b "Thumbs.db",
   s2b ".env", s2b ".env.local", s2b ".env.development.local", s2b ".env.test.local",
   s2b ".env.production.local", s2b "*.env", s2b "*.env.*", s2b ".svelte-kit",
   s2b ".next", s2b ".nuxt", s2b ".vuepress", s2b ".cache", s2b "dist", s2b "tmp",
   s2b "codebase.md", s2b ".turbo"]

/-- `IgnoreMatcher` (ignore.go); a compiled `*ignore.GitIgnore` is
represented by the pattern lines it was compiled from. -/
structure IgnoreMatcher where
  customIgnore : Option (List (List Nat)) := none
  defaultIgnore : Option (List (List Nat)) := none
deriving DecidableEq

/-- `NewIgnoreMatcher(patterns, useDefault)` (ignore.go); a nil Go slice
has length 0. -/
def NewIgnoreMatcher (patterns : List (List Nat)) (useDefault : Bool) : IgnoreMatcher :=
  { customIgnore := if 0 < patterns.length then some patterns else none,
    defaultIgnore := if useDefault then some DefaultIgnores else none }

/-- `filepath.ToSlash`: replaces the OS separator by `/`; on the POSIX
targets of this tool the separator already is `/`, so it is the
identity. -/
def toSlash (p : List Nat) : List Nat := p

/-- `IgnoreMatcher.ShouldIgnore(path)` (ignore.go), parameterized by the
matching semantics `matches` of the external compiled-gitignore library
(`MatchesPath` of a `GitIgnore` compiled from the stored lines): default
rule set first, then the custom one. -/
def ShouldIgnore (matchFn : List (List Nat) → List Nat → Bool)
    (im : IgnoreMatcher) (path : List Nat) : Bool :=
  let p := toSlash path
  (match im.defaultIgnore with
   | some ls => matchFn ls p
   | none => false) ||
  (match im.customIgnore with
   | some ls => matchFn ls p
   | none => false)

/-- Glob match of one gitignore pattern against one string: `*` matches
any run, `?` one byte. -/
def globMatch : List Nat → List Nat → Bool
  | [], [] => true
  | 42 :: ps, s =>
    globMatch ps s ||
      (match s with
       | [] => false
       | _ :: t => globMatch (42 :: ps) t)
  | 63 :: ps, _ :: t => globMatch ps t
  | c :: ps, d :: t => c == d && globMatch ps t
  | _, _ => false
termination_by p s => (p.length, s.length)

/-- Modelled from the spec: §4.1's gitignore-style pattern semantics of the
external `go-gitignore` dependency (not part of this repository).  A
pattern without `/` matches any path segment; a pattern with `/` matches
the whole slash-normalized path.  No claim below depends on the internals
of this function — C4 quantifies over arbitrary matching semantics. -/
def gitignoreMatch (lines : List (List Nat)) (path : List Nat) : Bool :=
  lines.any fun pat =>
    if pat.contains 47 then globMatch pat path
    else (path.splitOn 47).any fun seg => globMatch pat seg

/-! ### Configuration and construction (part_001) -/

/-- `ProcessorConfig` (part_001). -/
structure ProcessorConfig where
  InputDir : List Nat := []
  OutputFile : List Nat := []
  UseDefaultIgnores : Bool := false
  RemoveWhitespace : Bool := false
  ShowOutputFiles : Bool := false
  IgnoreFile : List Nat := []
  Split : Bool := false
  MaxFileSizeMB : Nat := 0
  OutputFilePattern : List Nat := []
  ChunkSize : Nat := 0
deriving DecidableEq

/-- The defaulting done at the top of `NewProcessor`: a zero `ChunkSize`
becomes 1 MB, a zero `MaxFileSizeMB` becomes 10. -/
def defaultedConfig (cfg : ProcessorConfig) : ProcessorConfig :=
  let cfg1 := if cfg.ChunkSize = 0 then { cfg with ChunkSize := 1024 * 1024 } else cfg
  if cfg1.MaxFileSizeMB = 0 then { cfg1 with MaxFileSizeMB := 10 } else cfg1

/-- The `Processor` fields the pipeline logic reads (the writer and logger
are modelled separately). -/
structure Processor where
  config : ProcessorConfig
  matcher : IgnoreMatcher
deriving DecidableEq

/-- `NewProcessor(cfg)` (part_001): note the matcher is built with a nil
custom pattern list. -/
def NewProcessor (cfg : ProcessorConfig) : Processor :=
  let cfg := defaultedConfig cfg
  { config := cfg, matcher := NewIgnoreMatcher [] cfg.UseDefaultIgnores }

/-! ### File collection (`Processor.collectFiles`) -/

/-- One step of the `filepath.Walk` callback: directories return early,
ignored paths bump `IgnoredCount`, the rest are appended to `files`. -/
def collectStep (shouldIg : List Nat → Bool) (acc : List WalkEntry × Nat)
    (e : WalkEntry) : List WalkEntry × Nat :=
  if e.isDir then acc
  else if shouldIg e.rel then (acc.1, acc.2 + 1)
  else (acc.1 ++ [e], acc.2)

/-- `Processor.collectFiles`: the surviving entries (in walk order) and
the ignored count.  A walk whose callback errors aborts the run before
any per-file work, so the entry list models a walk that completed. -/
def collectFiles (shouldIg : List Nat → Bool) (entries : List WalkEntry) :
    List WalkEntry × Nat :=
  entries.foldl (collectStep shouldIg) ([], 0)

/-! ### Output writers (part_001) -/

/-- `multiFileWriter`: the closed artifacts' bytes, the open artifact's
bytes, the open artifact's accumulated data size (`outputSize`, which
never counts the BOM — the BOM is written straight to the file, not
through the counter), and the 1-based `fileIndex`. -/
structure MultiState where
  done : List (List Nat) := []
  cur : List Nat := utf8BOM
  outputSize : Nat := 0
  fileIndex : Nat := 1
deriving DecidableEq

/-- `newMultiFileWriter`: construction runs `createNewFile` once, so the
first artifact exists and already holds the BOM. -/
def multiInit : MultiState := {}

/-- `multiFileWriter.Write(content)`.  After construction `w.writer` is
never nil, so the rotation condition reduces to the size test; rotation
is `createNewFile` (close current, open next, write BOM) followed by
`w.outputSize = 0`. -/
def multiWrite (maxMB : Nat) (st : MultiState) (content : List Nat) :
    Except (List Nat) MultiState :=
  if !(utf8Valid content) then .error (s2b "invalid UTF-8 content detected")
  else
    let contentSize := content.length
    let st' :=
      if st.outputSize + contentSize > maxMB * 1024 * 1024 then
        { done := st.done ++ [st.cur], cur := utf8BOM, outputSize := 0,
          fileIndex := st.fileIndex + 1 }
      else st
    .ok { st' with cur := st'.cur ++ content,
                   outputSize := st'.outputSize + contentSize }

/-- A `Write` call as the caller's loop sees it: a rejected write leaves
the writer untouched. -/
def multiStep (maxMB : Nat) (st : MultiState) (content : List Nat) : MultiState :=
  match multiWrite maxMB st content with
  | .ok st' => st'
  | .error _ => st

/-- The writer state after a sequence of `Write` calls on a fresh writer. -/
def multiRun (maxMB : Nat) (ws : List (List Nat)) : MultiState :=
  ws.foldl (multiStep maxMB) multiInit

/-- Every artifact the writer has produced, the open one included. -/
def allArtifacts (st : MultiState) : List (List Nat) := st.done ++ [st.cur]

/-- `singleFileWriter.Write(content)`: an unvalidated buffered append. -/
def singleWrite (out content : List Nat) : Except (List Nat) (List Nat) :=
  .ok (out ++ content)

/-- The single artifact's bytes after a sequence of `Write` calls;
`os.Create` starts it empty. -/
def singleRun (ws : List (List Nat)) : List Nat := ws.foldl (· ++ ·) []

/-- The `fileWriter` interface value held by a `Processor`. -/
inductive WriterState
  | single (out : List Nat)
  | multi (st : MultiState)
deriving DecidableEq

/-- Writer construction in `NewProcessor`: split chooses the multi-file
writer, otherwise a fresh single-file writer. -/
def writerInit (cfg : ProcessorConfig) : WriterState :=
  if cfg.Split then .multi multiInit else .single []

/-- `p.writer.Write(result.Content)` through the interface. -/
def writeBlock (cfg : ProcessorConfig) :
    WriterState → List Nat → Except (List Nat) WriterState
  | .single out, c => (singleWrite out c).map .single
  | .multi st, c => (multiWrite cfg.MaxFileSizeMB st c).map .multi

/-! ### Stats and the run loop (`Process`, part_001) -/

/-- The `ProcessorStats` counters the pipeline mutates (the split-mode
size extremes live in the writer model). -/
structure Stats where
  TotalFiles : Nat := 0
  IncludedCount : Nat := 0
  IgnoredCount : Nat := 0
  BinaryCount : Nat := 0
  TotalSize : Nat := 0
  IncludedFiles : List (List Nat) := []
deriving DecidableEq

/-- `Processor.updateStats(result)`. -/
def updateStats (st : Stats) (r : FileResult) : Stats :=
  { st with
    IncludedCount := st.IncludedCount + 1,
    IncludedFiles := st.IncludedFiles ++ [r.relativePath],
    BinaryCount := if r.fileType ≠ s2b "text" then st.BinaryCount + 1 else st.BinaryCount,
    TotalSize := st.TotalSize + r.size }

/-- The result-draining loop of `Process`: an errored result is logged and
skipped, a successful one is written through the writer interface `wb`
(a write failure aborts the run) and then counted. -/
def drain (wb : WriterState → List Nat → Except (List Nat) WriterState) :
    List FileResult → Stats → WriterState → Except (List Nat) (Stats × WriterState)
  | [], st, w => .ok (st, w)
  | r :: rs, st, w =>
    match r.error with
    | some _ => drain wb rs st w
    | none =>
      match wb w r.content with
      | .error e => .error e
      | .ok w' => drain wb rs (updateStats st r) w'

/-- `Processor.Process`, with the arrival order of the worker results an
explicit argument `results` (the bounded worker pool delivers one
`FileResult` per collected file in a nondeterministic order). -/
def ProcessR (cfg0 : ProcessorConfig) (entries : List WalkEntry)
    (results : List FileResult) : Except (List Nat) (Stats × WriterState) :=
  let p := NewProcessor cfg0
  let collected := collectFiles (ShouldIgnore gitignoreMatch p.matcher) entries
  let st0 : Stats := { TotalFiles := collected.1.length, IgnoredCount := collected.2 }
  drain (writeBlock p.config) results st0 (writerInit p.config)

/-- The multiset of worker results of a run: one `processFile` outcome per
collected file. -/
def processorResults (cfg0 : ProcessorConfig) (entries : List WalkEntry) :
    List FileResult :=
  let p := NewProcessor cfg0
  ((collectFiles (ShouldIgnore gitignoreMatch p.matcher) entries).1).map
    (processFile p.config.RemoveWhitespace)

/-- A whole run in dispatch order (one admissible arrival order). -/
def Process (cfg0 : ProcessorConfig) (entries : List WalkEntry) :
    Except (List Nat) (Stats × WriterState) :=
  ProcessR cfg0 entries (processorResults cfg0 entries)

/-! ## Helper lemmas -/

lemma foldlInv {α β : Type} (f : α → β → α) (P : α → Prop)
    (h : ∀ a b, P a → P (f a b)) : ∀ (l : List β) (a : α), P a → P (l.foldl f a)
  | [], _, ha => ha
  | b :: l, a, ha => foldlInv f P h l (f a b) (h a b ha)

lemma goHasSuffix_append (x suf : List Nat) : goHasSuffix (x ++ suf) suf = true := by
  have h : (x ++ suf).length - suf.length = x.length := by simp
  simp [goHasSuffix, h, List.drop_left]

lemma take3_bom (r : List Nat) : (utf8BOM ++ r).take 3 = utf8BOM :=
  List.take_left utf8BOM r

/-- A list whose first three bytes are the BOM is the BOM followed by its
remainder. -/
lemma eq_bom_append_of_take3 (a : List Nat) (h : a.take 3 = utf8BOM) :
    a = utf8BOM ++ a.drop 3 := by
  conv_lhs => rw [← List.take_append_drop 3 a, h]

/-- The single-file writer's buffer is the concatenation of all written
blocks. -/
lemma foldl_append_eq_flatten (ws : List (List Nat)) :
    ∀ init : List Nat, ws.foldl (· ++ ·) init = init ++ ws.flatten := by
  induction ws with
  | nil => intro init; simp
  | cons w ws ih => intro init; simp [ih, List.append_assoc]

/-- Both artifact invariants a `Write` call preserves: the open artifact
is BOM-prefixed and its length is the BOM plus the `outputSize` counter. -/
lemma multiStep_bom (maxMB : Nat) (st : MultiState) (w : List Nat)
    (h : st.cur.take 3 = utf8BOM ∧ ∀ a ∈ st.done, a.take 3 = utf8BOM) :
    (multiStep maxMB st w).cur.take 3 = utf8BOM ∧
      ∀ a ∈ (multiStep maxMB st w).done, a.take 3 = utf8BOM := by
  obtain ⟨hc, hd⟩ := h
  unfold multiStep multiWrite
  by_cases hv : utf8Valid w
  · by_cases hs : st.outputSize + w.length > maxMB * 1024 * 1024
    · simp only [hv, Bool.not_true, if_pos hs, Bool.false_eq_true, if_false]
      refine ⟨take3_bom w, ?_⟩
      intro a ha
      rcases List.mem_append.mp ha with h1 | h1
      · exact hd a h1
      · simp at h1; subst h1; exact hc
    · simp only [hv, Bool.not_true, if_neg hs, Bool.false_eq_true, if_false]
      refine ⟨?_, hd⟩
      rw [eq_bom_append_of_take3 st.cur hc, List.append_assoc]
      exact take3_bom _
  · simp only [Bool.not_eq_true] at hv
    simp [hv]
    exact ⟨hc, hd⟩

/-- The per-artifact size bound maintained by the split writer: data size
within the ceiling, or a single oversized written block. -/
def artifactOk (maxMB : Nat) (ws : List (List Nat)) (a : List Nat) : Prop :=
  a.length ≤ 3 + maxMB * 1024 * 1024 ∨
    ∃ b ∈ ws, a = utf8BOM ++ b ∧ b.length > maxMB * 1024 * 1024

/-- Writer invariant for the ceiling argument. -/
def multiInv (maxMB : Nat) (ws : List (List Nat)) (st : MultiState) : Prop :=
  st.cur.length = 3 + st.outputSize ∧ artifactOk maxMB ws st.cur ∧
    ∀ a ∈ st.done, artifactOk maxMB ws a

lemma multiStep_inv (maxMB : Nat) (ws0 : List (List Nat)) (st : MultiState)
    (w : List Nat) (hw : w ∈ ws0) (h : multiInv maxMB ws0 st) :
    multiInv maxMB ws0 (multiStep maxMB st w) := by
  obtain ⟨hlen, hcur, hdone⟩ := h
  unfold multiStep multiWrite
  by_cases hv : utf8Valid w
  · by_cases hs : st.outputSize + w.length > maxMB * 1024 * 1024
    · simp only [hv, Bool.not_true, if_pos hs, Bool.false_eq_true, if_false]
      refine ⟨by simp [utf8BOM]; omega, ?_, ?_⟩
      · by_cases hb : w.length > maxMB * 1024 * 1024
        · exact Or.inr ⟨w, hw, rfl, hb⟩
        · left; simp [utf8BOM]; omega
      · intro a ha
        rcases List.mem_append.mp ha with h1 | h1
        · exact hdone a h1
        · simp at h1; subst h1; exact hcur
    · simp only [hv, Bool.not_true, if_neg hs, Bool.false_eq_true, if_false]
      refine ⟨by simp; omega, ?_, hdone⟩
      left
      simp only [List.length_append]
      omega
  · simp only [Bool.not_eq_true] at hv
    simp [hv]
    exact ⟨hlen, hcur, hdone⟩

lemma multiRun_inv (maxMB : Nat) (ws0 : List (List Nat)) :
    ∀ (ws : List (List Nat)) (st : MultiState), (∀ w ∈ ws, w ∈ ws0) →
      multiInv maxMB ws0 st → multiInv maxMB ws0 (ws.foldl (multiStep maxMB) st) := by
  intro ws
  induction ws with
  | nil => intro st _ h; exact h
  | cons w ws ih =>
    intro st hsub h
    exact ih (multiStep maxMB st w)
      (fun x hx => hsub x (List.mem_cons_of_mem w hx))
      (multiStep_inv maxMB ws0 st w (hsub w (List.mem_cons_self w ws)) h)

/-! ## Claim theorems -/

/-- C10: encoding validation at write time happens only in the split
strategy — `multiFileWriter.Write` errors (touching nothing) exactly on
invalid UTF-8, while `singleFileWriter.Write` accepts any byte sequence
and appends it unvalidated. -/
theorem write_validation_split_only (maxMB : Nat) (st : MultiState) (w out c : List Nat) :
    ((∃ e, multiWrite maxMB st w = .error e) ↔ utf8Valid w = false)
    ∧ (utf8Valid w = false → multiStep maxMB st w = st)
    ∧ singleWrite out c = .ok (out ++ c) := by
  refine ⟨?_, ?_, rfl⟩
  · unfold multiWrite
    by_cases hv : utf8Valid w
    · simp [hv]
    · simp only [Bool.not_eq_true] at hv
      simp [hv]
  · intro hv
    unfold multiStep multiWrite
    simp [hv]

/-- Witness for C10 at a concrete invalid byte. -/
theorem write_validation_split_only_witness :
    multiStep 10 multiInit [0xFF] = multiInit ∧ singleWrite [] [0xFF] = .ok [0xFF] :=
  ⟨(write_validation_split_only 10 multiInit [0xFF] [] [0xFF]).2.1 (by decide),
   (write_validation_split_only 10 multiInit [0xFF] [] [0xFF]).2.2⟩

/-- C6: every artifact produced by the split-mode writer starts with the
UTF-8 byte-order marker `EF BB BF`, and the single-artifact writer
prepends nothing — its output is exactly the concatenation of the
written blocks. -/
theorem artifact_bom_marker (maxMB : Nat) (ws : List (List Nat)) :
    (∀ a ∈ allArtifacts (multiRun maxMB ws), a.take 3 = utf8BOM)
    ∧ singleRun ws = ws.flatten := by
  constructor
  · have h := foldlInv (multiStep maxMB)
      (fun st => st.cur.take 3 = utf8BOM ∧ ∀ a ∈ st.done, a.take 3 = utf8BOM)
      (fun st w hw => multiStep_bom maxMB st w hw) ws multiInit
      ⟨by decide, by intro a ha; cases ha⟩
    intro a ha
    rcases List.mem_append.mp ha with h1 | h1
    · exact h.2 a h1
    · simp at h1; subst h1; exact h.1
  · exact (foldl_append_eq_flatten ws []).trans (by simp)

/-- Witness for C6 on a concrete one-block run. -/
theorem artifact_bom_marker_witness :
    (utf8BOM ++ s2b "hi").take 3 = utf8BOM :=
  (artifact_bom_marker 1 [s2b "hi"]).1 (utf8BOM ++ s2b "hi") (by decide)

/-- C3: in split mode every produced artifact holds at most
`MaxFileSizeMB*1024*1024` bytes beyond its 3-byte marker, except an
artifact holding a single written block that alone exceeds the ceiling
(written whole); and a successful `Write` rotates to a fresh artifact
exactly when the incoming block would push the open artifact's
accumulated count past the ceiling. -/
theorem split_artifact_ceiling (maxMB : Nat) (ws : List (List Nat)) :
    (∀ a ∈ allArtifacts (multiRun maxMB ws),
       a.length - 3 ≤ maxMB * 1024 * 1024 ∨
         ∃ b ∈ ws, a = utf8BOM ++ b ∧ b.length > maxMB * 1024 * 1024)
    ∧ (∀ (st st' : MultiState) (w : List Nat), multiWrite maxMB st w = .ok st' →
        (st'.fileIndex = st.fileIndex + 1 ↔
          st.outputSize + w.length > maxMB * 1024 * 1024)) := by
  constructor
  · have h := multiRun_inv maxMB ws ws multiInit (fun _ hx => hx)
      ⟨by decide, Or.inl (by simp [multiInit, utf8BOM]), by intro a ha; cases ha⟩
    intro a ha
    have hok : artifactOk maxMB ws a := by
      rcases List.mem_append.mp ha with h1 | h1
      · exact h.2.2 a h1
      · simp at h1; subst h1; exact h.2.1
    rcases hok with h1 | h1
    · left; omega
    · exact Or.inr h1
  · intro st st' w hok
    unfold multiWrite at hok
    by_cases hv : utf8Valid w
    · simp only [hv, Bool.not_true, Bool.false_eq_true, if_false] at hok
      by_cases hs : st.outputSize + w.length > maxMB * 1024 * 1024
      · rw [if_pos hs] at hok
        cases hok
        simp [hs]
      · rw [if_neg hs] at hok
        cases hok
        simp only [hs, iff_false]
        omega
    · simp only [Bool.not_eq_true] at hv
      simp [hv] at hok

/-- Witness for C3 on a concrete run: one small block, ceiling 1 MB. -/
theorem split_artifact_ceiling_witness :
    (utf8BOM ++ s2b "hi").length - 3 ≤ 1 * 1024 * 1024 ∨
      ∃ b ∈ [s2b "hi"], utf8BOM ++ s2b "hi" = utf8BOM ++ b ∧
        b.length > 1 * 1024 * 1024 :=
  (split_artifact_ceiling 1 [s2b "hi"]).1 (utf8BOM ++ s2b "hi") (by decide)

lemma defaultedConfig_Split (cfg : ProcessorConfig) :
    (defaultedConfig cfg).Split = cfg.Split := by
  simp only [defaultedConfig]
  split_ifs <;> rfl

/-- C5: a run over an empty directory sees zero files, and the writer
holds: in single mode one artifact with empty content, in split mode a
single artifact containing nothing beyond the 3-byte encoding marker. -/
theorem empty_run_artifacts (cfg : ProcessorConfig) :
    Process cfg [] =
      .ok (({} : Stats),
           if cfg.Split then WriterState.multi multiInit else WriterState.single [])
    ∧ ({} : Stats).TotalFiles = 0
    ∧ allArtifacts multiInit = [utf8BOM] := by
  refine ⟨?_, rfl, rfl⟩
  show Except.ok (_, writerInit (defaultedConfig cfg)) = _
  rw [writerInit, defaultedConfig_Split]
  rfl

/-- C4: which paths a run ignores depends only on the default pattern set
and the `UseDefaultIgnores` flag.  `NewProcessor` builds the matcher with
a nil custom pattern list, so whatever `IgnoreFile` is configured, the
whole run is unchanged — for any matching semantics of the compiled
rule sets. -/
theorem ignoreFile_never_affects_run (cfg : ProcessorConfig) (s : List Nat)
    (entries : List WalkEntry) :
    Process { cfg with IgnoreFile := s } entries = Process cfg entries
    ∧ (NewProcessor cfg).matcher.customIgnore = none
    ∧ ∀ (matchFn : List (List Nat) → List Nat → Bool) (path : List Nat),
        ShouldIgnore matchFn (NewProcessor cfg).matcher path =
          (cfg.UseDefaultIgnores && matchFn DefaultIgnores (toSlash path)) := by
  refine ⟨?_, rfl, ?_⟩
  · have hdc : defaultedConfig { cfg with IgnoreFile := s } =
        { defaultedConfig cfg with IgnoreFile := s } := by
      simp only [defaultedConfig]
      split_ifs <;> rfl
    unfold Process ProcessR processorResults NewProcessor
    rw [hdc]
    rfl
  · intro matchFn path
    show ShouldIgnore matchFn
      (NewIgnoreMatcher [] (defaultedConfig cfg).UseDefaultIgnores) path = _
    have hud : (defaultedConfig cfg).UseDefaultIgnores = cfg.UseDefaultIgnores := by
      simp only [defaultedConfig]
      split_ifs <;> rfl
    rw [hud]
    unfold ShouldIgnore NewIgnoreMatcher
    cases cfg.UseDefaultIgnores <;> simp

lemma extOf_append_svg (q : List Nat) : extOf (q ++ s2b ".svg") = s2b ".svg" := by
  rw [extOf, show s2b ".svg" = [46, 115, 118, 103] from rfl, List.reverse_append]
  simp [extOfAux]

lemma asciiToLower_append_svg (q : List Nat) :
    asciiToLower (q ++ s2b ".svg") = asciiToLower q ++ s2b ".svg" := by
  unfold asciiToLower
  rw [List.map_append]
  rfl

/-- The `logo.svg` walk entry of the C2 counterexample: valid UTF-8 SVG
text, sniffed as an image MIME type. -/
def svgEntry : WalkEntry :=
  { rel := s2b "logo.svg", content := s2b "<svg/>", contentType := s2b "image/svg+xml" }

/-- C2 counterexample: a `logo.svg` file whose bytes are valid UTF-8 text
is not classified as `"text"` and is rendered as the one-line placeholder,
not as a fenced text block. -/
theorem svg_text_claim_counterexample :
    utf8Valid svgEntry.content = true
    ∧ (processFile false svgEntry).fileType ≠ s2b "text"
    ∧ (processFile false svgEntry).fileType = s2b "SVG Image"
    ∧ (processFile false svgEntry).content =
        s2b "# logo.svg\n\nThis is a file of type: SVG Image\n\n" := by
  refine ⟨by decide, by decide, by decide, by decide⟩

/-- C2 (amended): for every file whose name ends in `.svg`,
`IsTextFile` does report text regardless of the sniffed MIME type, but
`ShouldTreatAsBinary` also holds (`.svg` is a key of `BinaryFileTypes`),
so `processFile` takes the placeholder branch: the `FileType` is
`"SVG Image"` (never `"text"`) and the content is the one-line
`This is a file of type: SVG Image` block. -/
theorem svg_placeholder_classification (q content contentType : List Nat) (flag : Bool) :
    IsTextFile (q ++ s2b ".svg") contentType = true
    ∧ ShouldTreatAsBinary (q ++ s2b ".svg") = true
    ∧ processFile flag
        { rel := q ++ s2b ".svg", content := content, contentType := contentType } =
        { relativePath := q ++ s2b ".svg",
          content := s2b "# " ++ (q ++ s2b ".svg")
            ++ s2b "\n\nThis is a file of type: SVG Image\n\n",
          fileType := s2b "SVG Image",
          size := content.length,
          error := none } := by
  have hsuf : goHasSuffix (asciiToLower (q ++ s2b ".svg")) (s2b ".svg") = true := by
    rw [asciiToLower_append_svg]
    exact goHasSuffix_append _ _
  have hext : extOf (q ++ s2b ".svg") = s2b ".svg" := extOf_append_svg q
  have htext : IsTextFile (q ++ s2b ".svg") contentType = true := by
    unfold IsTextFile
    rw [hsuf]
    rfl
  have hbin : ShouldTreatAsBinary (q ++ s2b ".svg") = true := by
    unfold ShouldTreatAsBinary
    rw [hext]
    rfl
  have hget : GetFileType (q ++ s2b ".svg") = s2b "SVG Image" := by
    unfold GetFileType
    rw [hext]
    rfl
  have hfmt : formatBinaryFileContent (q ++ s2b ".svg") (s2b "SVG Image") =
      s2b "# " ++ (q ++ s2b ".svg") ++ s2b "\n\nThis is a file of type: SVG Image\n\n" := by
    unfold formatBinaryFileContent
    rw [hsuf]
    simp only [if_true, List.append_assoc, List.append_cancel_left_eq]
    decide
  refine ⟨htext, hbin, ?_⟩
  unfold processFile
  simp only [htext, hbin, Bool.not_true, Bool.and_false, Bool.false_eq_true, if_false,
    hget, hfmt]

/-- C9: a file whose extension is whitespace-sensitive renders with its
BOM-stripped bytes embedded verbatim, whether or not whitespace removal
is enabled: the normalizer is never applied. -/
theorem whitespace_sensitive_preserved (relPath content : List Nat) (flag : Bool)
    (hsens : IsWhitespaceSensitive (extOf relPath) = true)
    (hval : utf8Valid (stripBOM content) = true) :
    processTextFile relPath content flag =
      .ok (s2b "# " ++ relPath ++ s2b "\n\n" ++ s2b "```" ++ dropDot (extOf relPath)
        ++ s2b "\n" ++ stripBOM content ++ s2b "\n```\n\n") := by
  have hmem : extOf relPath ∈ WhitespaceDependentExtensions := by
    unfold IsWhitespaceSensitive at hsens
    simpa using hsens
  simp only [WhitespaceDependentExtensions, List.mem_cons, List.mem_singleton,
    List.not_mem_nil, or_false] at hmem
  unfold processTextFile
  rcases hmem with h | h | h | h | h | h | h | h | h | h <;>
    simp [hval, hsens, h, dropDot, s2b] <;>
    exact fun _ hI => absurd hI (by decide)

/-- Witness for C9: a `.py` file keeps its double space with the removal
flag on. -/
theorem whitespace_sensitive_preserved_witness :
    IsWhitespaceSensitive (extOf (s2b "a.py")) = true ∧
      processTextFile (s2b "a.py") (s2b "x  y") true =
        .ok (s2b "# " ++ s2b "a.py" ++ s2b "\n\n" ++ s2b "```" ++ dropDot (extOf (s2b "a.py"))
          ++ s2b "\n" ++ stripBOM (s2b "x  y") ++ s2b "\n```\n\n") :=
  ⟨by decide,
   whitespace_sensitive_preserved (s2b "a.py") (s2b "x  y") true (by decide) (by decide)⟩

/-- C7 counterexample: a `.markdown` file is fenced with four backticks
tagged `md`, not with its own extension `markdown` as the claim's
"tagged with the file's extension" requires. -/
theorem markdown_fence_tag_counterexample :
    processTextFile (s2b "a.markdown") (s2b "x") false =
      .ok (s2b "# a.markdown\n\n````md\nx\n````\n\n")
    ∧ s2b "# a.markdown\n\n````md\nx\n````\n\n" ≠
        s2b "# a.markdown\n\n````markdown\nx\n````\n\n" :=
  ⟨rfl, by decide⟩

/-- C7 (amended): a text file renders as a heading line naming the
relative path, a blank line, the (possibly normalized) content in a code
fence, and a trailing blank line; `.md` and `.markdown` files use a
four-backtick fence tagged `md` (the tag is the literal `md` for both),
all other files a three-backtick fence tagged with the extension minus
its dot.  Rendering strips a leading BOM and fails exactly when the
BOM-stripped bytes are not valid UTF-8. -/
theorem text_block_format (relPath content : List Nat) (flag : Bool) :
    ((∃ r, processTextFile relPath content flag = .ok r) ↔
        utf8Valid (stripBOM content) = true)
    ∧ ∀ r, processTextFile relPath content flag = .ok r →
        r = s2b "# " ++ relPath ++ s2b "\n\n" ++
          (if extOf relPath = s2b ".md" ∨ extOf relPath = s2b ".markdown" then
            s2b "````md\n" ++
              (if flag && !(IsWhitespaceSensitive (extOf relPath)) then
                utf8Encode (RemoveWhitespace (utf8Decode (stripBOM content)))
              else stripBOM content) ++ s2b "\n````\n\n"
          else
            s2b "```" ++ dropDot (extOf relPath) ++ s2b "\n" ++
              (if flag && !(IsWhitespaceSensitive (extOf relPath)) then
                utf8Encode (RemoveWhitespace (utf8Decode (stripBOM content)))
              else stripBOM content) ++ s2b "\n```\n\n") := by
  by_cases hv : utf8Valid (stripBOM content)
  · constructor
    · refine ⟨fun _ => hv, fun _ => ?_⟩
      unfold processTextFile
      simp only [hv, Bool.not_true, Bool.false_eq_true, if_false]
      by_cases hmd : (extOf relPath == s2b ".md" || extOf relPath == s2b ".markdown") = true
      · rw [if_pos hmd]; exact ⟨_, rfl⟩
      · rw [if_neg hmd]; exact ⟨_, rfl⟩
    · intro r hr
      unfold processTextFile at hr
      simp only [hv, Bool.not_true, Bool.false_eq_true, if_false] at hr
      by_cases hmd : (extOf relPath == s2b ".md" || extOf relPath == s2b ".markdown") = true
      · rw [if_pos hmd] at hr
        cases hr
        have hmd' : extOf relPath = s2b ".md" ∨ extOf relPath = s2b ".markdown" := by
          simpa using hmd
        rw [if_pos hmd']
        simp [List.append_assoc]
      · rw [if_neg hmd] at hr
        cases hr
        have hmd' : ¬(extOf relPath = s2b ".md" ∨ extOf relPath = s2b ".markdown") := by
          simpa using hmd
        rw [if_neg hmd']
        simp [List.append_assoc]
  · constructor
    · simp only [Bool.not_eq_true] at hv
      constructor
      · rintro ⟨r, hr⟩
        unfold processTextFile at hr
        simp [hv] at hr
      · intro h
        rw [h] at hv
        cases hv
    · intro r hr
      simp only [Bool.not_eq_true] at hv
      unfold processTextFile at hr
      simp [hv] at hr

/-- Witness for C7 on a concrete markdown file. -/
theorem text_block_format_witness :
    processTextFile (s2b "a.md") (s2b "x") false = .ok (s2b "# a.md\n\n````md\nx\n````\n\n")
    ∧ s2b "# a.md\n\n````md\nx\n````\n\n" = s2b "# " ++ s2b "a.md" ++ s2b "\n\n" ++
        (if extOf (s2b "a.md") = s2b ".md" ∨ extOf (s2b "a.md") = s2b ".markdown" then
          s2b "````md\n" ++
            (if false && !(IsWhitespaceSensitive (extOf (s2b "a.md"))) then
              utf8Encode (RemoveWhitespace (utf8Decode (stripBOM (s2b "x"))))
            else stripBOM (s2b "x")) ++ s2b "\n````\n\n"
        else
          s2b "```" ++ dropDot (extOf (s2b "a.md")) ++ s2b "\n" ++
            (if false && !(IsWhitespaceSensitive (extOf (s2b "a.md"))) then
              utf8Encode (RemoveWhitespace (utf8Decode (stripBOM (s2b "x"))))
            else stripBOM (s2b "x")) ++ s2b "\n```\n\n") :=
  ⟨rfl, (text_block_format (s2b "a.md") (s2b "x") false).2 _ rfl⟩

/-! ### Idempotence of the whitespace normalizer (C8) -/

/-- Every whitespace rune of the list is a plain space. -/
def onlySpaceWS (l : List Char) : Prop :=
  ∀ c ∈ l, isWhitespaceRune c = true → c = ' '

/-- No two adjacent whitespace runes. -/
def noConsecWS : List Char → Prop
  | a :: b :: rest =>
    ¬(isWhitespaceRune a = true ∧ isWhitespaceRune b = true) ∧ noConsecWS (b :: rest)
  | _ => True

/-- The head, when present, is not a whitespace rune. -/
def headNotWS : List Char → Prop
  | [] => True
  | c :: _ => isWhitespaceRune c = false

/-- The head, when present, is not a `unicode.IsSpace` rune. -/
def headNotSp : List Char → Prop
  | [] => True
  | c :: _ => goIsSpace c = false

/-- The last rune, when present, is not a `unicode.IsSpace` rune. -/
def lastNotSp : List Char → Prop
  | [] => True
  | [c] => goIsSpace c = false
  | _ :: c :: rest => lastNotSp (c :: rest)

lemma noConsec_tail (x : Char) (l : List Char) (h : noConsecWS (x :: l)) :
    noConsecWS l := by
  cases l with
  | nil => trivial
  | cons y ys => exact h.2

lemma noConsec_cons_of (x : Char) (l : List Char) (h1 : noConsecWS l)
    (h2 : headNotWS l ∨ isWhitespaceRune x = false) : noConsecWS (x :: l) := by
  cases l with
  | nil => trivial
  | cons y ys =>
    refine ⟨?_, h1⟩
    rintro ⟨hx, hy⟩
    rcases h2 with h2 | h2
    · rw [show headNotWS (y :: ys) = (isWhitespaceRune y = false) from rfl] at h2
      rw [h2] at hy
      cases hy
    · rw [h2] at hx
      cases hx

lemma noConsec_head (x : Char) (l : List Char) (h : noConsecWS (x :: l))
    (hx : isWhitespaceRune x = true) : headNotWS l := by
  cases l with
  | nil => trivial
  | cons y ys =>
    show isWhitespaceRune y = false
    cases hy : isWhitespaceRune y with
    | false => rfl
    | true => exact absurd ⟨hx, hy⟩ h.1

/-- The collapse loop emits only single spaces for whitespace, never two
in a row, and never starts with whitespace while the `space` flag is up. -/
lemma collapse_props (s : List Char) : ∀ b : Bool,
    onlySpaceWS (collapseWS s b) ∧ noConsecWS (collapseWS s b) ∧
      (b = true → headNotWS (collapseWS s b)) := by
  induction s with
  | nil =>
    intro b
    exact ⟨fun c hc => absurd hc (List.not_mem_nil c), trivial, fun _ => trivial⟩
  | cons r rs ih =>
    intro b
    cases hw : isWhitespaceRune r with
    | true =>
      cases b with
      | true =>
        simp only [collapseWS, hw, if_true]
        obtain ⟨o, n, hh⟩ := ih true
        exact ⟨o, n, fun _ => hh rfl⟩
      | false =>
        simp only [collapseWS, hw, if_true, Bool.false_eq_true, if_false]
        obtain ⟨o, n, hh⟩ := ih true
        refine ⟨?_, ?_, fun hb => by cases hb⟩
        · intro c hc hcw
          rcases List.mem_cons.mp hc with h | h
          · exact h
          · exact o c h hcw
        · exact noConsec_cons_of ' ' _ n (Or.inl (hh rfl))
    | false =>
      simp only [collapseWS, hw, Bool.false_eq_true, if_false]
      obtain ⟨o, n, _⟩ := ih false
      refine ⟨?_, noConsec_cons_of r _ n (Or.inr hw), fun _ => hw⟩
      intro c hc hcw
      rcases List.mem_cons.mp hc with h | h
      · rw [h] at hcw; rw [hcw] at hw; cases hw
      · exact o c h hcw

/-- On a list that is already collapsed, the collapse loop is the
identity. -/
lemma collapse_id : ∀ (l : List Char) (b : Bool), onlySpaceWS l → noConsecWS l →
    (b = true → headNotWS l) → collapseWS l b = l := by
  intro l
  induction l with
  | nil => intro b _ _ _; rfl
  | cons c l' ih =>
    intro b ho hn hh
    cases hw : isWhitespaceRune c with
    | true =>
      have hb : b = false := by
        cases b with
        | false => rfl
        | true =>
          have := hh rfl
          rw [show headNotWS (c :: l') = (isWhitespaceRune c = false) from rfl] at this
          rw [this] at hw
          cases hw
      subst hb
      have hc : c = ' ' := ho c (List.mem_cons_self c l') hw
      simp only [collapseWS, hw, if_true, Bool.false_eq_true, if_false]
      rw [hc]
      congr 1
      exact ih true (fun x hx => ho x (List.mem_cons_of_mem c hx))
        (noConsec_tail c l' hn) (fun _ => noConsec_head c l' hn hw)
    | false =>
      simp only [collapseWS, hw, Bool.false_eq_true, if_false]
      congr 1
      exact ih false (fun x hx => ho x (List.mem_cons_of_mem c hx))
        (noConsec_tail c l' hn) (fun hb => by cases hb)

lemma onlySpace_dropWhile (l : List Char) (h : onlySpaceWS l) :
    onlySpaceWS (l.dropWhile goIsSpace) :=
  fun c hc => h c ((l.dropWhile_sublist goIsSpace).subset hc)

lemma noConsec_dropWhile : ∀ l : List Char, noConsecWS l →
    noConsecWS (l.dropWhile goIsSpace) := by
  intro l
  induction l with
  | nil => intro _; trivial
  | cons c l' ih =>
    intro h
    rw [List.dropWhile_cons]
    cases hp : goIsSpace c with
    | true => simpa [hp] using ih (noConsec_tail c l' h)
    | false => simpa [hp] using h

lemma trimRight_pre : ∀ l : List Char, ∃ t, l = trimRightSpace l ++ t := by
  intro l
  induction l with
  | nil => exact ⟨[], rfl⟩
  | cons c l' ih =>
    obtain ⟨t, ht⟩ := ih
    simp only [trimRightSpace]
    by_cases he : ((trimRightSpace l').isEmpty && goIsSpace c) = true
    · rw [if_pos he]
      refine ⟨c :: l', rfl⟩
    · rw [if_neg he]
      exact ⟨t, by rw [List.cons_append, ← ht]⟩

lemma onlySpace_append_left (l₁ l₂ : List Char) (h : onlySpaceWS (l₁ ++ l₂)) :
    onlySpaceWS l₁ :=
  fun c hc => h c (List.mem_append_left l₂ hc)

lemma noConsec_append_left : ∀ l₁ l₂ : List Char, noConsecWS (l₁ ++ l₂) →
    noConsecWS l₁ := by
  intro l₁
  induction l₁ with
  | nil => intro _ _; trivial
  | cons x l ih =>
    intro l₂ h
    rw [List.cons_append] at h
    refine noConsec_cons_of x l (ih l₂ (noConsec_tail x (l ++ l₂) h)) ?_
    cases l with
    | nil => exact Or.inl trivial
    | cons y ys =>
      cases hx : isWhitespaceRune x with
      | false => exact Or.inr rfl
      | true =>
        left
        rw [List.cons_append] at h
        exact noConsec_head x (y :: (ys ++ l₂)) h hx

lemma headNotSp_dropWhile : ∀ l : List Char, headNotSp (l.dropWhile goIsSpace) := by
  intro l
  induction l with
  | nil => trivial
  | cons c l' ih =>
    rw [List.dropWhile_cons]
    cases hp : goIsSpace c with
    | true => simp only [hp, if_true]; exact ih
    | false => simp only [hp, Bool.false_eq_true, if_false]; exact hp

lemma lastNotSp_trimRight : ∀ l : List Char, lastNotSp (trimRightSpace l) := by
  intro l
  induction l with
  | nil => trivial
  | cons c l' ih =>
    simp only [trimRightSpace]
    by_cases he : ((trimRightSpace l').isEmpty && goIsSpace c) = true
    · rw [if_pos he]; trivial
    · rw [if_neg he]
      cases ht : trimRightSpace l' with
      | nil =>
        rw [ht] at he
        show lastNotSp [c]
        have : goIsSpace c = false := by
          cases hg : goIsSpace c with
          | false => rfl
          | true => exact absurd (by simp [hg]) he
        exact this
      | cons y ys =>
        show lastNotSp (c :: y :: ys)
        rw [show lastNotSp (c :: y :: ys) = lastNotSp (y :: ys) from rfl, ← ht]
        exact ih

lemma headNotSp_trimRight (l : List Char) (h : headNotSp l) :
    headNotSp (trimRightSpace l) := by
  cases l with
  | nil => trivial
  | cons c l' =>
    simp only [trimRightSpace]
    by_cases he : ((trimRightSpace l').isEmpty && goIsSpace c) = true
    · rw [if_pos he]; trivial
    · rw [if_neg he]; exact h

lemma dropWhile_eq_self_of_headNot (l : List Char) (h : headNotSp l) :
    l.dropWhile goIsSpace = l := by
  cases l with
  | nil => rfl
  | cons c l' =>
    rw [List.dropWhile_cons]
    rw [show headNotSp (c :: l') = (goIsSpace c = false) from rfl] at h
    simp [h]

lemma trimRight_eq_self_of_lastNot : ∀ l : List Char, lastNotSp l →
    trimRightSpace l = l := by
  intro l
  induction l with
  | nil => intro _; rfl
  | cons c l' ih =>
    intro h
    simp only [trimRightSpace]
    cases hl : l' with
    | nil =>
      subst hl
      rw [show lastNotSp [c] = (goIsSpace c = false) from rfl] at h
      simp [trimRightSpace, h]
    | cons y ys =>
      subst hl
      have h' : lastNotSp (y :: ys) := h
      rw [ih h']
      simp

/-- C8: the whitespace normalizer is idempotent — applying
`RemoveWhitespace` twice gives the same string as applying it once. -/
theorem removeWhitespace_idempotent (s : List Char) :
    RemoveWhitespace (RemoveWhitespace s) = RemoveWhitespace s := by
  unfold RemoveWhitespace trimSpace trimLeftSpace
  obtain ⟨ou, nu, _⟩ := collapse_props s false
  set u := collapseWS s false with hu
  set d := u.dropWhile goIsSpace with hd
  set t := trimRightSpace d with ht
  have od : onlySpaceWS d := onlySpace_dropWhile u ou
  have nd : noConsecWS d := noConsec_dropWhile u nu
  obtain ⟨t', htp⟩ := trimRight_pre d
  have ot : onlySpaceWS t := onlySpace_append_left t t' (htp ▸ od)
  have nt : noConsecWS t := noConsec_append_left t t' (htp ▸ nd)
  have hh : headNotSp t := headNotSp_trimRight d (headNotSp_dropWhile u)
  have hlast : lastNotSp t := lastNotSp_trimRight d
  rw [collapse_id t false ot nt (fun hb => by cases hb),
    dropWhile_eq_self_of_headNot t hh,
    trimRight_eq_self_of_lastNot t hlast]

/-! ### The counting invariant of a run (C1) -/

/-- The collector partitions the walked files: survivors plus ignored
count equals the number of non-directory entries seen. -/
lemma collect_count (shouldIg : List Nat → Bool) :
    ∀ (entries : List WalkEntry) (acc : List WalkEntry × Nat),
      (entries.foldl (collectStep shouldIg) acc).1.length
          + (entries.foldl (collectStep shouldIg) acc).2
        = acc.1.length + acc.2 + entries.countP (fun e => !e.isDir) := by
  intro entries
  induction entries with
  | nil => intro acc; simp
  | cons e es ih =>
    intro acc
    rw [List.foldl_cons, List.countP_cons, ih (collectStep shouldIg acc e)]
    unfold collectStep
    cases hd : e.isDir with
    | true => simp [hd]
    | false =>
      cases hi : shouldIg e.rel with
      | true => simp [hd, hi]; omega
      | false => simp [hd, hi]; omega

/-- Draining a result list adds one to the included count per error-free
result and leaves the ignored count alone. -/
lemma drain_counts (wb : WriterState → List Nat → Except (List Nat) WriterState) :
    ∀ (rs : List FileResult) (st : Stats) (w : WriterState) (out : Stats × WriterState),
      drain wb rs st w = .ok out →
      out.1.IncludedCount = st.IncludedCount + rs.countP (fun r => r.error.isNone)
        ∧ out.1.IgnoredCount = st.IgnoredCount := by
  intro rs
  induction rs with
  | nil =>
    intro st w out h
    unfold drain at h
    cases h
    simp
  | cons r rs ih =>
    intro st w out h
    rw [List.countP_cons]
    unfold drain at h
    cases he : r.error with
    | some e =>
      rw [he] at h
      obtain ⟨h1, h2⟩ := ih st w out h
      simp [h1, h2, he]
    | none =>
      rw [he] at h
      cases hw : wb w r.content with
      | error e => rw [hw] at h; cases h
      | ok w' =>
        rw [hw] at h
        obtain ⟨h1, h2⟩ := ih (updateStats st r) w' out h
        rw [h1, h2]
        unfold updateStats
        simp [he]
        omega

/-- C1: after a drained run, `IncludedCount + IgnoredCount` plus the
number of error-carrying `FileResult`s equals the number of files the
collector saw (the walked non-directory entries), for every arrival order
of the worker results. -/
theorem process_stats_partition (cfg : ProcessorConfig) (entries : List WalkEntry)
    (results : List FileResult) (out : Stats × WriterState)
    (hperm : results.Perm (processorResults cfg entries))
    (hok : ProcessR cfg entries results = .ok out) :
    out.1.IncludedCount + out.1.IgnoredCount
        + results.countP (fun r => r.error.isSome)
      = entries.countP (fun e => !e.isDir) := by
  unfold ProcessR at hok
  obtain ⟨h1, h2⟩ := drain_counts _ results _ _ out hok
  have hc := collect_count (ShouldIgnore gitignoreMatch (NewProcessor cfg).matcher)
    entries ([], 0)
  have hlen : results.length =
      (collectFiles (ShouldIgnore gitignoreMatch (NewProcessor cfg).matcher) entries).1.length := by
    rw [hperm.length_eq]
    unfold processorResults
    rw [List.length_map]
  have hsplit : results.countP (fun r => r.error.isSome)
      + results.countP (fun r => r.error.isNone) = results.length := by
    have h := List.length_eq_countP_add_countP (fun r : FileResult => r.error.isSome) results
    have hq : results.countP (fun a : FileResult => decide ¬(a.error.isSome = true))
        = results.countP (fun r => r.error.isNone) := by
      apply List.countP_congr
      intro r _
      cases r.error <;> rfl
    omega
  simp only [h1, h2]
  simp only [collectFiles] at hlen ⊢
  simp only [List.length_nil, Nat.zero_add] at hc
  omega

/-- The single walked file of the C1 witness run. -/
def c1wEntry : WalkEntry :=
  { rel := s2b "a.txt", content := s2b "hi", contentType := s2b "text/plain" }

/-- The stats the C1 witness run ends with. -/
def c1wStats : Stats :=
  { TotalFiles := 1, IncludedCount := 1, IgnoredCount := 0, BinaryCount := 0,
    TotalSize := 2, IncludedFiles := [s2b "a.txt"] }

/-- The full outcome of the C1 witness run. -/
def c1wOut : Stats × WriterState :=
  (c1wStats, WriterState.single (s2b "# a.txt\n\n```txt\nhi\n```\n\n"))

/-- Witness for C1 on a concrete one-file run in single mode. -/
theorem process_stats_partition_witness :
    c1wOut.1.IncludedCount + c1wOut.1.IgnoredCount
        + (processorResults {} [c1wEntry]).countP (fun r => r.error.isSome)
      = [c1wEntry].countP (fun e => !e.isDir) :=
  process_stats_partition {} [c1wEntry] (processorResults {} [c1wEntry]) c1wOut
    (List.Perm.refl _) rfl

end AiDigest
